import Mathlib

/-!
Verification of the fixed-width grid text-layout engine of the picture-diary
application.

The engine lives in two places in the source, which must agree:
* `calculateRequiredRows` (App.tsx): normalizes the raw text and runs a
  count-only walk to predict the number of grid rows.
* `GridNotebook` (components/GridNotebook.tsx): runs the same normalization and
  the same walk, but materializes the grid cells (`displayCells`), capped at
  `rows * GRID_COLS` cells and padded with empty cells.

Strings are embedded as `List Char` (JS strings indexed by UTF-16 code unit;
every character appearing in the layout rules is a single BMP code unit).
-/

/-- Constant `GRID_COLS` from types.ts: the fixed column count of the notebook grid. -/
def GRID_COLS : Nat := 10

/-- The JavaScript `\s` character class (whitespace as matched by the
normalization regexes). -/
def isJsWs (c : Char) : Bool :=
  c = ' ' || c = '\t' || c = '\n' || c = '\r' ||
  c.val = 0x0b || c.val = 0x0c || c.val = 0xa0 || c.val = 0x1680 ||
  (0x2000 ≤ c.val && c.val ≤ 0x200a) ||
  c.val = 0x2028 || c.val = 0x2029 || c.val = 0x202f || c.val = 0x205f ||
  c.val = 0x3000 || c.val = 0xfeff

/-- Array `PUNCTUATION` from the source: sentence punctuation. -/
def PUNCTUATION : List Char := ['.', ',', '!', '?']

/-- The opening smart quotes targeted by the third rule of the normalizer. -/
def OPEN_SMART : List Char := ['“', '‘']

/-- The closing smart quotes targeted by the fourth rule of the normalizer. -/
def CLOSE_SMART : List Char := ['”', '’']

/-- Array `FORBIDDEN_START_CHARS` from the source: characters that must not
start a new line (PUNCTUATION plus the closing smart quotes and the closing
parenthesis). -/
def FORBIDDEN_START_CHARS : List Char := PUNCTUATION ++ ['”', '’', ')']

/-- Rule `text.replace(newline, space)` applied globally: every newline
becomes a space. -/
def mapNewlines (t : List Char) : List Char :=
  t.map (fun c => if c = '\n' then ' ' else c)

/-- Worker for the trigger-then-whitespace replacement rules: the Boolean
state records whether the previous kept character was a trigger (so subsequent
whitespace is part of a run to delete). -/
def rmWsAfterGo (trig : List Char) : Bool → List Char → List Char
  | _, [] => []
  | b, c :: rest =>
    if b && isJsWs c then rmWsAfterGo trig b rest
    else c :: rmWsAfterGo trig (decide (c ∈ trig)) rest

/-- Regex replacement deleting every whitespace run that immediately follows
a trigger character (rules 2 and 3 of the normalizer). -/
def rmWsAfter (trig : List Char) (t : List Char) : List Char :=
  rmWsAfterGo trig false t

/-- One step of the fourth replacement rule, processed right to left: a
whitespace character is dropped exactly when the already-processed suffix
begins with a closing smart quote. -/
def rmWsBeforeCloseStep (c : Char) (acc : List Char) : List Char :=
  if isJsWs c && (match acc.head? with
                  | some q => decide (q ∈ CLOSE_SMART)
                  | none => false) then acc
  else c :: acc

/-- Regex replacement deleting every whitespace run that immediately precedes
a closing smart quote (rule 4 of the normalizer). -/
def rmWsBeforeClose (t : List Char) : List Char :=
  t.foldr rmWsBeforeCloseStep []

/-- Normalization `cleanText` as computed identically in App.tsx and
GridNotebook.tsx: newline replacement, then whitespace removal after
punctuation, after opening quotes and before closing quotes, and finally one
space prepended to the whole result. -/
def cleanText (t : List Char) : List Char :=
  ' ' :: rmWsBeforeClose (rmWsAfter OPEN_SMART (rmWsAfter PUNCTUATION (mapNewlines t)))

/-- One grid cell: `{ char: string, subChar?: string }` in the source.
`char = none` models the empty string pushed while padding; an emitted cell
always carries `some` primary character. `subChar` is the optional squeezed
companion. -/
structure Cell where
  char : Option Char
  subChar : Option Char
deriving DecidableEq, Repr

/-- The count-only walk of `calculateRequiredRows` (App.tsx): `n` is
`cellCount`, the list is the unread remainder of `cleanText`; returns the
final `cellCount`. -/
def countCells : List Char → Nat → Nat
  | [], n => n
  | [c], n =>
    if c = ' ' ∧ 0 < n ∧ n % GRID_COLS = 0 then n else n + 1
  | c :: c2 :: rest2, n =>
    if c = ' ' ∧ 0 < n ∧ n % GRID_COLS = 0 then
      countCells (c2 :: rest2) n
    else if (n + 1) % GRID_COLS = 0 ∧ c2 ∈ FORBIDDEN_START_CHARS then
      countCells rest2 (n + 1)
    else
      countCells (c2 :: rest2) (n + 1)

/-- Function `calculateRequiredRows` (App.tsx): normalize, run the counting
walk from zero, then take `Math.max(5, Math.ceil(cellCount / GRID_COLS))`. -/
def calculateRequiredRows (text : List Char) : Nat :=
  max 5 ((countCells (cleanText text) 0 + (GRID_COLS - 1)) / GRID_COLS)

/-- The materializing walk of `GridNotebook` building `displayCells`: stops
when the text is exhausted or `maxChars` cells have been emitted. -/
def buildCells (maxChars : Nat) : List Char → Nat → List Cell
  | [], _ => []
  | [c], n =>
    if n < maxChars then
      if c = ' ' ∧ 0 < n ∧ n % GRID_COLS = 0 then [] else [⟨some c, none⟩]
    else []
  | c :: c2 :: rest2, n =>
    if n < maxChars then
      if c = ' ' ∧ 0 < n ∧ n % GRID_COLS = 0 then
        buildCells maxChars (c2 :: rest2) n
      else if (n + 1) % GRID_COLS = 0 ∧ c2 ∈ FORBIDDEN_START_CHARS then
        ⟨some c, some c2⟩ :: buildCells maxChars rest2 (n + 1)
      else
        ⟨some c, none⟩ :: buildCells maxChars (c2 :: rest2) (n + 1)
    else []

/-- The uncapped materializing walk: identical decisions to `buildCells` with
no `maxChars` cap. It is the common refinement target: `countCells` is its
cell count and `buildCells` is its truncation (used to state C1 and C10). -/
def buildCellsNoCap : List Char → Nat → List Cell
  | [], _ => []
  | [c], n =>
    if c = ' ' ∧ 0 < n ∧ n % GRID_COLS = 0 then [] else [⟨some c, none⟩]
  | c :: c2 :: rest2, n =>
    if c = ' ' ∧ 0 < n ∧ n % GRID_COLS = 0 then
      buildCellsNoCap (c2 :: rest2) n
    else if (n + 1) % GRID_COLS = 0 ∧ c2 ∈ FORBIDDEN_START_CHARS then
      ⟨some c, some c2⟩ :: buildCellsNoCap rest2 (n + 1)
    else
      ⟨some c, none⟩ :: buildCellsNoCap (c2 :: rest2) (n + 1)

/-- Full grid of `GridNotebook`: normalize, run the capped walk, then pad
with empty cells (char set to the empty string) up to `rows * GRID_COLS`. -/
def buildGrid (text : List Char) (rows : Nat) : List Cell :=
  buildCells (rows * GRID_COLS) (cleanText text) 0 ++
    List.replicate (rows * GRID_COLS -
      (buildCells (rows * GRID_COLS) (cleanText text) 0).length) ⟨none, none⟩

/-! ### Basic facts about the walks -/

/-- The cell count never decreases along the counting walk. -/
theorem countCells_ge (l : List Char) (n : Nat) : n ≤ countCells l n := by
  induction l, n using countCells.induct with
  | case1 n => simp [countCells]
  | case2 c n h => simp [countCells, h]
  | case3 c n h => rw [countCells, if_neg h]; omega
  | case4 c c2 rest2 n h ih => rw [countCells, if_pos h]; exact ih
  | case5 c c2 rest2 n h h2 ih =>
    rw [countCells, if_neg h, if_pos h2]; omega
  | case6 c c2 rest2 n h h2 ih =>
    rw [countCells, if_neg h, if_neg h2]; omega

/-- Each emitted cell consumes at least one character: the walk adds at most
one cell per remaining character (the read cursor strictly advances). -/
theorem countCells_le (l : List Char) (n : Nat) :
    countCells l n ≤ n + l.length := by
  induction l, n using countCells.induct with
  | case1 n => simp [countCells]
  | case2 c n h => simp [countCells, h]
  | case3 c n h => rw [countCells, if_neg h]; simp
  | case4 c c2 rest2 n h ih =>
    rw [countCells, if_pos h]; simp only [List.length_cons] at ih ⊢; omega
  | case5 c c2 rest2 n h h2 ih =>
    rw [countCells, if_neg h, if_pos h2]; simp only [List.length_cons] at ih ⊢; omega
  | case6 c c2 rest2 n h h2 ih =>
    rw [countCells, if_neg h, if_neg h2]; simp only [List.length_cons] at ih ⊢; omega

/-- The uncapped materializing walk emits exactly the number of cells the
counting walk counts: the two passes make identical skip/squeeze decisions. -/
theorem buildCellsNoCap_length (l : List Char) (n : Nat) :
    (buildCellsNoCap l n).length + n = countCells l n := by
  induction l, n using buildCellsNoCap.induct with
  | case1 n => simp [buildCellsNoCap, countCells]
  | case2 c n h => simp [buildCellsNoCap, countCells, h]
  | case3 c n h =>
    rw [buildCellsNoCap, if_neg h, countCells, if_neg h]; simp; omega
  | case4 c c2 rest2 n h ih =>
    rw [buildCellsNoCap, if_pos h, countCells, if_pos h]; exact ih
  | case5 c c2 rest2 n h h2 ih =>
    rw [buildCellsNoCap, if_neg h, if_pos h2, countCells, if_neg h, if_pos h2]
    simp only [List.length_cons]; omega
  | case6 c c2 rest2 n h h2 ih =>
    rw [buildCellsNoCap, if_neg h, if_neg h2, countCells, if_neg h, if_neg h2]
    simp only [List.length_cons]; omega

/-- The capped walk is the truncation of the uncapped walk to the remaining
cell budget: the cap changes nothing but where the walk stops. -/
theorem buildCells_eq_take (m : Nat) (l : List Char) (n : Nat) :
    buildCells m l n = (buildCellsNoCap l n).take (m - n) := by
  induction l, n using buildCells.induct m with
  | case1 n => simp [buildCells, buildCellsNoCap]
  | case2 c n hm h => simp [buildCells, buildCellsNoCap, hm, h]
  | case3 c n hm h =>
    rw [buildCells, if_pos hm, if_neg h, buildCellsNoCap, if_neg h]
    rw [List.take_cons (by omega)]
    simp
  | case4 c n hm =>
    rw [buildCells, if_neg hm, buildCellsNoCap]
    have : m - n = 0 := by omega
    simp [this]
  | case5 c c2 rest2 n hm h ih =>
    rw [buildCells, if_pos hm, if_pos h, buildCellsNoCap, if_pos h]; exact ih
  | case6 c c2 rest2 n hm h h2 ih =>
    rw [buildCells, if_pos hm, if_neg h, if_pos h2,
        buildCellsNoCap, if_neg h, if_pos h2]
    rw [List.take_cons (by omega)]
    have : m - n - 1 = m - (n + 1) := by omega
    rw [this, ih]
  | case7 c c2 rest2 n hm h h2 ih =>
    rw [buildCells, if_pos hm, if_neg h, if_neg h2,
        buildCellsNoCap, if_neg h, if_neg h2]
    rw [List.take_cons (by omega)]
    have : m - n - 1 = m - (n + 1) := by omega
    rw [this, ih]
  | case8 c c2 rest2 n hm =>
    rw [buildCells, if_neg hm]
    have : m - n = 0 := by omega
    simp [this]

/-- Length of the capped walk: the minimum of the predicted count and the
cap, measured from the starting cell count. -/
theorem buildCells_length (m : Nat) (l : List Char) (n : Nat) (h : n ≤ m) :
    (buildCells m l n).length + n = min (countCells l n) m := by
  have h1 := buildCellsNoCap_length l n
  have h2 := countCells_ge l n
  rw [buildCells_eq_take, List.length_take]
  omega

/-- Every cell emitted by the uncapped walk carries a primary character. -/
theorem buildCellsNoCap_char_isSome (l : List Char) (n : Nat) :
    ∀ cell ∈ buildCellsNoCap l n, cell.char.isSome := by
  induction l, n using buildCellsNoCap.induct with
  | case1 n => simp [buildCellsNoCap]
  | case2 c n h => simp [buildCellsNoCap, h]
  | case3 c n h => rw [buildCellsNoCap, if_neg h]; simp
  | case4 c c2 rest2 n h ih => rw [buildCellsNoCap, if_pos h]; exact ih
  | case5 c c2 rest2 n h h2 ih =>
    rw [buildCellsNoCap, if_neg h, if_pos h2]
    intro cell hc
    rcases List.mem_cons.1 hc with rfl | hc
    · rfl
    · exact ih cell hc
  | case6 c c2 rest2 n h h2 ih =>
    rw [buildCellsNoCap, if_neg h, if_neg h2]
    intro cell hc
    rcases List.mem_cons.1 hc with rfl | hc
    · rfl
    · exact ih cell hc

/-- Companion invariant along the uncapped walk: a squeezed companion is a
forbidden-start character, sits in the last column, and is the character
immediately following the primary in the remaining text. -/
theorem buildCellsNoCap_subChar (l : List Char) (n : Nat) :
    ∀ i cell q, (buildCellsNoCap l n)[i]? = some cell → cell.subChar = some q →
      q ∈ FORBIDDEN_START_CHARS ∧ (n + i + 1) % GRID_COLS = 0 ∧
      ∃ p k, cell.char = some p ∧ l[k]? = some p ∧ l[k + 1]? = some q := by
  induction l, n using buildCellsNoCap.induct with
  | case1 n =>
    intro i cell q h1 h2
    simp [buildCellsNoCap] at h1
  | case2 c n h =>
    intro i cell q h1 h2
    simp [buildCellsNoCap, h] at h1
  | case3 c n h =>
    intro i cell q h1 h2
    rw [buildCellsNoCap, if_neg h] at h1
    match i with
    | 0 =>
      simp only [List.getElem?_cons_zero, Option.some.injEq] at h1
      rw [← h1] at h2
      simp at h2
    | j + 1 =>
      simp at h1
  | case4 c c2 rest2 n h ih =>
    intro i cell q h1 h2
    rw [buildCellsNoCap, if_pos h] at h1
    obtain ⟨hq, hmod, p, k, hp, hk1, hk2⟩ := ih i cell q h1 h2
    refine ⟨hq, hmod, p, k + 1, hp, ?_, ?_⟩
    · rw [List.getElem?_cons_succ]; exact hk1
    · show (c :: c2 :: rest2)[k + 1 + 1]? = some q
      rw [List.getElem?_cons_succ]; exact hk2
  | case5 c c2 rest2 n h h2 ih =>
    intro i cell q h1 h2'
    rw [buildCellsNoCap, if_neg h, if_pos h2] at h1
    match i with
    | 0 =>
      simp only [List.getElem?_cons_zero, Option.some.injEq] at h1
      rw [← h1] at h2'
      simp only at h2'
      have hq : q = c2 := by
        have := h2'
        simp [Cell.subChar] at this
        exact this.symm
      subst hq
      refine ⟨h2.2, by simpa using h2.1, c, 0, by rw [← h1], ?_, ?_⟩
      · rw [List.getElem?_cons_zero]
      · rw [List.getElem?_cons_succ, List.getElem?_cons_zero]
    | j + 1 =>
      rw [List.getElem?_cons_succ] at h1
      obtain ⟨hq, hmod, p, k, hp, hk1, hk2⟩ := ih j cell q h1 h2'
      have e : n + 1 + j + 1 = n + (j + 1) + 1 := by omega
      rw [e] at hmod
      refine ⟨hq, hmod, p, k + 2, hp, ?_, ?_⟩
      · show (c :: c2 :: rest2)[k + 1 + 1]? = some p
        rw [List.getElem?_cons_succ, List.getElem?_cons_succ]; exact hk1
      · show (c :: c2 :: rest2)[k + 1 + 1 + 1]? = some q
        rw [List.getElem?_cons_succ, List.getElem?_cons_succ]; exact hk2
  | case6 c c2 rest2 n h h2 ih =>
    intro i cell q h1 h2'
    rw [buildCellsNoCap, if_neg h, if_neg h2] at h1
    match i with
    | 0 =>
      simp only [List.getElem?_cons_zero, Option.some.injEq] at h1
      rw [← h1] at h2'
      simp at h2'
    | j + 1 =>
      rw [List.getElem?_cons_succ] at h1
      obtain ⟨hq, hmod, p, k, hp, hk1, hk2⟩ := ih j cell q h1 h2'
      have e : n + 1 + j + 1 = n + (j + 1) + 1 := by omega
      rw [e] at hmod
      refine ⟨hq, hmod, p, k + 1, hp, ?_, ?_⟩
      · rw [List.getElem?_cons_succ]; exact hk1
      · show (c :: c2 :: rest2)[k + 1 + 1]? = some q
        rw [List.getElem?_cons_succ]; exact hk2

/-- Decidable side condition for the amended C4: nowhere in the list is a
forbidden-start character immediately preceded by another forbidden-start
character or by a plain space. -/
def pairsOK : List Char → Bool
  | [] => true
  | [_] => true
  | a :: b :: rest =>
    (!(decide (b ∈ FORBIDDEN_START_CHARS)) ||
      (!(decide (a ∈ FORBIDDEN_START_CHARS)) && !(decide (a = ' ')))) &&
    pairsOK (b :: rest)

/-- Dropping the head preserves `pairsOK`. -/
theorem pairsOK_tail {a : Char} {t : List Char} (h : pairsOK (a :: t) = true) :
    pairsOK t = true := by
  match t with
  | [] => rfl
  | b :: rest =>
    rw [pairsOK, Bool.and_eq_true] at h
    exact h.2

/-- Reading off the adjacent-pair condition at the head of the list. -/
theorem pairsOK_head {a b : Char} {t : List Char}
    (h : pairsOK (a :: b :: t) = true) (hb : b ∈ FORBIDDEN_START_CHARS) :
    a ∉ FORBIDDEN_START_CHARS ∧ a ≠ ' ' := by
  rw [pairsOK, Bool.and_eq_true] at h
  have h1 := h.1
  simp only [Bool.or_eq_true, Bool.and_eq_true, Bool.not_eq_true',
    decide_eq_false_iff_not, decide_eq_true_eq] at h1
  rcases h1 with h1 | h1
  · exact absurd hb h1
  · exact ⟨h1.1, h1.2⟩

/-- Row-start characters along the uncapped walk: under `pairsOK`, and
provided the current head could not itself start a row with a forbidden
character, no cell at a row-start position holds a forbidden primary. -/
theorem buildCellsNoCap_rowStart (l : List Char) (n : Nat) :
    pairsOK l = true →
    ((0 < n ∧ n % GRID_COLS = 0) →
      ∀ c, l.head? = some c → c ∉ FORBIDDEN_START_CHARS) →
    ∀ i cell ch, (buildCellsNoCap l n)[i]? = some cell →
      (n + i) % GRID_COLS = 0 → 0 < n + i → cell.char = some ch →
      ch ∉ FORBIDDEN_START_CHARS := by
  induction l, n using buildCellsNoCap.induct with
  | case1 n =>
    intro hp hh i cell ch h1 hmod hpos hch
    simp [buildCellsNoCap] at h1
  | case2 c n h =>
    intro hp hh i cell ch h1 hmod hpos hch
    simp [buildCellsNoCap, h] at h1
  | case3 c n h =>
    intro hp hh i cell ch h1 hmod hpos hch
    rw [buildCellsNoCap, if_neg h] at h1
    match i with
    | 0 =>
      simp only [List.getElem?_cons_zero, Option.some.injEq] at h1
      rw [← h1] at hch
      simp only [Option.some.injEq] at hch
      subst hch
      exact hh ⟨by omega, by simpa using hmod⟩ c rfl
    | j + 1 => simp at h1
  | case4 c c2 rest2 n h ih =>
    intro hp hh i cell ch h1 hmod hpos hch
    rw [buildCellsNoCap, if_pos h] at h1
    refine ih (pairsOK_tail hp) ?_ i cell ch h1 hmod hpos hch
    intro _ c2h hc2
    simp only [List.head?_cons, Option.some.injEq] at hc2
    subst hc2
    intro hmem
    have := pairsOK_head hp hmem
    exact this.2 h.1
  | case5 c c2 rest2 n h h2 ih =>
    intro hp hh i cell ch h1 hmod hpos hch
    rw [buildCellsNoCap, if_neg h, if_pos h2] at h1
    match i with
    | 0 =>
      simp only [List.getElem?_cons_zero, Option.some.injEq] at h1
      rw [← h1] at hch
      simp only [Option.some.injEq] at hch
      subst hch
      exact hh ⟨by omega, by simpa using hmod⟩ c rfl
    | j + 1 =>
      rw [List.getElem?_cons_succ] at h1
      have e : n + (j + 1) = n + 1 + j := by omega
      rw [e] at hmod hpos
      refine ih (pairsOK_tail (pairsOK_tail hp)) ?_ j cell ch h1 hmod hpos hch
      intro _ c3 hc3
      cases rest2 with
      | nil => simp at hc3
      | cons c3h tail =>
        simp only [List.head?_cons, Option.some.injEq] at hc3
        subst hc3
        intro hmem
        have := pairsOK_head (pairsOK_tail hp) hmem
        exact this.1 h2.2
  | case6 c c2 rest2 n h h2 ih =>
    intro hp hh i cell ch h1 hmod hpos hch
    rw [buildCellsNoCap, if_neg h, if_neg h2] at h1
    match i with
    | 0 =>
      simp only [List.getElem?_cons_zero, Option.some.injEq] at h1
      rw [← h1] at hch
      simp only [Option.some.injEq] at hch
      subst hch
      exact hh ⟨by omega, by simpa using hmod⟩ c rfl
    | j + 1 =>
      rw [List.getElem?_cons_succ] at h1
      have e : n + (j + 1) = n + 1 + j := by omega
      rw [e] at hmod hpos
      refine ih (pairsOK_tail hp) ?_ j cell ch h1 hmod hpos hch
      intro hcond c2h hc2
      simp only [List.head?_cons, Option.some.injEq] at hc2
      subst hc2
      intro hmem
      exact h2 ⟨by omega, hmem⟩

/-- The grid always has exactly `rows * GRID_COLS` cells. -/
theorem buildGrid_len (text : List Char) (rows : Nat) :
    (buildGrid text rows).length = rows * GRID_COLS := by
  unfold buildGrid
  simp only [List.length_append, List.length_replicate]
  have h := buildCells_length (rows * GRID_COLS) (cleanText text) 0 (Nat.zero_le _)
  omega

/-- Any cell found in the grid is either produced by the uncapped walk at the
same index or is the empty padding cell. -/
theorem buildGrid_cell_cases (text : List Char) (rows : Nat) (i : Nat)
    (cell : Cell) (h : (buildGrid text rows)[i]? = some cell) :
    (buildCellsNoCap (cleanText text) 0)[i]? = some cell ∨ cell = ⟨none, none⟩ := by
  unfold buildGrid at h
  by_cases hi : i < (buildCells (rows * GRID_COLS) (cleanText text) 0).length
  · rw [List.getElem?_append_left hi] at h
    rw [buildCells_eq_take] at h hi
    rw [List.length_take] at hi
    left
    rw [List.getElem?_take_of_lt (by omega : i < rows * GRID_COLS - 0)] at h
    exact h
  · rw [List.getElem?_append_right (Nat.le_of_not_lt hi)] at h
    right
    rw [List.getElem?_replicate] at h
    split at h
    · exact (Option.some.inj h).symm
    · exact absurd h (by simp)

/-! ### Claim theorems -/

/-- C1: for every raw text, feeding `calculateRequiredRows` into the grid
builder yields a grid whose cells beyond the last emitted glyph are all
empty, with exactly `rows * GRID_COLS - countCells` trailing empty cells,
while every cell up to the counted cell count carries a glyph: the counting
and materializing walks make identical skip/squeeze decisions. -/
theorem countRows_buildGrid_agree (text : List Char) :
    ((buildGrid text (calculateRequiredRows text)).drop
        (countCells (cleanText text) 0)).length =
      calculateRequiredRows text * GRID_COLS - countCells (cleanText text) 0 ∧
    (∀ cell ∈ (buildGrid text (calculateRequiredRows text)).drop
        (countCells (cleanText text) 0), cell = ⟨none, none⟩) ∧
    ∀ cell ∈ (buildGrid text (calculateRequiredRows text)).take
        (countCells (cleanText text) 0), cell.char.isSome := by
  have hq : (countCells (cleanText text) 0 + (GRID_COLS - 1)) / GRID_COLS ≤
      calculateRequiredRows text := Nat.le_max_right _ _
  have hdm := Nat.div_add_mod (countCells (cleanText text) 0 + 9) 10
  have hm : (countCells (cleanText text) 0 + 9) % 10 < 10 :=
    Nat.mod_lt _ (by norm_num)
  have h10 : GRID_COLS = 10 := rfl
  have hNm : countCells (cleanText text) 0 ≤
      calculateRequiredRows text * GRID_COLS := by
    rw [h10] at hq ⊢
    omega
  have hcl := buildCells_length (calculateRequiredRows text * GRID_COLS)
      (cleanText text) 0 (Nat.zero_le _)
  have hcells : (buildCells (calculateRequiredRows text * GRID_COLS)
      (cleanText text) 0).length = countCells (cleanText text) 0 := by omega
  refine ⟨?_, ?_, ?_⟩
  · rw [List.length_drop, buildGrid_len]
  · intro cell hc
    unfold buildGrid at hc
    rw [← hcells, List.drop_left] at hc
    exact List.eq_of_mem_replicate hc
  · intro cell hc
    unfold buildGrid at hc
    rw [← hcells, List.take_left] at hc
    have hmem : cell ∈ buildCellsNoCap (cleanText text) 0 := by
      rw [buildCells_eq_take] at hc
      exact List.mem_of_mem_take hc
    exact buildCellsNoCap_char_isSome _ _ cell hmem

/-- C2: end-of-line squeeze on the concrete input `"123456789.rest"` with the
derived row count 5: the reserved leading space occupies cell 0, the digits
fill cells 1 through 9, cell 9 squeezes the primary digit 9 together with the
companion full stop, and the letter r starts row 2 at cell index 10. -/
theorem squeeze_example :
    (buildGrid "123456789.rest".toList 5)[9]? = some ⟨some '9', some '.'⟩ ∧
    (buildGrid "123456789.rest".toList 5)[10]? = some ⟨some 'r', none⟩ ∧
    calculateRequiredRows "123456789.rest".toList = 5 := by decide

/-- C3: for every text and every `rows ≥ 5`, the grid has exactly
`rows * GRID_COLS` cells, and every cell after the last emitted glyph is the
empty padding cell (empty primary, no companion). -/
theorem buildGrid_size_and_padding (text : List Char) (rows : Nat)
    (h : 5 ≤ rows) :
    (buildGrid text rows).length = rows * GRID_COLS ∧
    ∀ cell ∈ (buildGrid text rows).drop
        ((buildCells (rows * GRID_COLS) (cleanText text) 0).length),
      cell = ⟨none, none⟩ := by
  refine ⟨buildGrid_len text rows, ?_⟩
  intro cell hc
  unfold buildGrid at hc
  rw [List.drop_left] at hc
  exact List.eq_of_mem_replicate hc

/-- Witness for C3 at `text = "hi"`, `rows = 5`. -/
theorem buildGrid_size_and_padding_witness :
    5 ≤ 5 ∧ (buildGrid "hi".toList 5).length = 5 * GRID_COLS :=
  ⟨Nat.le_refl 5, (buildGrid_size_and_padding "hi".toList 5 (Nat.le_refl 5)).1⟩

/-- C8: empty input is not an error: the predicted row count is the minimum 5
and the 50-cell grid is the reserved indentation space (a whitespace glyph)
followed by 49 empty cells. -/
theorem empty_input_grid :
    calculateRequiredRows "".toList = 5 ∧
    buildGrid "".toList 5 =
      ⟨some ' ', none⟩ :: List.replicate 49 ⟨none, none⟩ := by decide

/-- C9: the engine is total: every input yields a fully padded grid of
exactly the requested size and a row count of at least 5; the walk emits at
most one cell per character of the normalized text (the read cursor strictly
advances on every iteration). -/
theorem layout_engine_total (text : List Char) (rows : Nat) :
    (buildGrid text rows).length = rows * GRID_COLS ∧
    5 ≤ calculateRequiredRows text ∧
    countCells (cleanText text) 0 ≤ (cleanText text).length :=
  ⟨buildGrid_len text rows, Nat.le_max_left _ _, by
    simpa using countCells_le (cleanText text) 0⟩

/-- C10: when the normalized text needs more cells than `rows * GRID_COLS`,
the capped walk stops at the cap: the grid still has exactly
`rows * GRID_COLS` cells and equals the first `rows * GRID_COLS` cells of the
uncapped walk; the unread tail is silently dropped. -/
theorem buildGrid_truncation (text : List Char) (rows : Nat)
    (h : rows * GRID_COLS < countCells (cleanText text) 0) :
    buildGrid text rows =
      (buildCellsNoCap (cleanText text) 0).take (rows * GRID_COLS) ∧
    (buildGrid text rows).length = rows * GRID_COLS := by
  refine ⟨?_, buildGrid_len text rows⟩
  have hcl := buildCells_length (rows * GRID_COLS) (cleanText text) 0
    (Nat.zero_le _)
  have hfull : (buildCells (rows * GRID_COLS) (cleanText text) 0).length =
      rows * GRID_COLS := by omega
  unfold buildGrid
  rw [hfull, Nat.sub_self, List.replicate_zero, List.append_nil,
    buildCells_eq_take, Nat.sub_zero]

/-- Witness for C10 at `text = "abcdefghijklmno"`, `rows = 1`. -/
theorem buildGrid_truncation_witness :
    1 * GRID_COLS < countCells (cleanText "abcdefghijklmno".toList) 0 ∧
    buildGrid "abcdefghijklmno".toList 1 =
      (buildCellsNoCap (cleanText "abcdefghijklmno".toList) 0).take
        (1 * GRID_COLS) :=
  ⟨by decide,
    (buildGrid_truncation "abcdefghijklmno".toList 1 (by decide)).1⟩

/-- C7: a cell holds at most one primary and one companion character by the
shape of `Cell`; whenever a grid cell has a companion, that cell sits in the
last column of its row, the companion is a forbidden-start character
(sentence punctuation, a closing smart quote, or the closing parenthesis),
and it is the character immediately following the primary in the normalized
text. -/
theorem cell_companion_invariant (text : List Char) (rows : Nat) :
    ∀ i cell q, (buildGrid text rows)[i]? = some cell →
      cell.subChar = some q →
      q ∈ FORBIDDEN_START_CHARS ∧ (i + 1) % GRID_COLS = 0 ∧
      ∃ p k, cell.char = some p ∧ (cleanText text)[k]? = some p ∧
        (cleanText text)[k + 1]? = some q := by
  intro i cell q h1 h2
  rcases buildGrid_cell_cases text rows i cell h1 with hc | rfl
  · have := buildCellsNoCap_subChar (cleanText text) 0 i cell q hc h2
    simpa using this
  · simp at h2

/-- Witness for C7 at the squeezed cell 9 of `"123456789."`. -/
theorem cell_companion_invariant_witness :
    (buildGrid "123456789.".toList 5)[9]? = some ⟨some '9', some '.'⟩ ∧
    ('.' ∈ FORBIDDEN_START_CHARS ∧ (9 + 1) % GRID_COLS = 0 ∧
      ∃ p k, (Cell.mk (some '9') (some '.')).char = some p ∧
        (cleanText "123456789.".toList)[k]? = some p ∧
        (cleanText "123456789.".toList)[k + 1]? = some '.') :=
  ⟨by decide,
    cell_companion_invariant "123456789.".toList 5 9 ⟨some '9', some '.'⟩ '.'
      (by decide) rfl⟩

/-- Counterexample to C4 as stated: in `"123456789.)"` two forbidden-start
characters are adjacent in the normalized text; the full stop is squeezed
into cell 9 as a companion, and the closing parenthesis — itself a
forbidden-start character — then begins row 2 at cell index 10. -/
theorem rowStart_counterexample :
    (buildGrid "123456789.)".toList 5)[10]? = some ⟨some ')', none⟩ ∧
    ')' ∈ FORBIDDEN_START_CHARS ∧ (10 : Nat) % GRID_COLS = 0 := by decide

/-- C4 amended: provided the normalized text nowhere has a forbidden-start
character immediately preceded by another forbidden-start character or by a
plain space (`pairsOK`), no row other than the first begins with a cell
whose primary is a forbidden-start character. -/
theorem rowStart_no_forbidden (text : List Char) (rows : Nat)
    (hp : pairsOK (cleanText text) = true) :
    ∀ i cell ch, (buildGrid text rows)[i]? = some cell →
      i % GRID_COLS = 0 → 0 < i → cell.char = some ch →
      ch ∉ FORBIDDEN_START_CHARS := by
  intro i cell ch h1 hmod hpos hch
  rcases buildGrid_cell_cases text rows i cell h1 with hc | rfl
  · refine buildCellsNoCap_rowStart (cleanText text) 0 hp ?_ i cell ch hc
      (by simpa using hmod) (by simpa using hpos) hch
    intro hcond
    exact absurd hcond.1 (by omega)
  · simp at hch

/-- Witness for the amended C4 at `"hello world"`, cell 10. -/
theorem rowStart_no_forbidden_witness :
    pairsOK (cleanText "hello world".toList) = true ∧
    (buildGrid "hello world".toList 5)[10]? = some ⟨some 'l', none⟩ ∧
    'l' ∉ FORBIDDEN_START_CHARS :=
  ⟨by decide, by decide,
    rowStart_no_forbidden "hello world".toList 5 (by decide) 10
      ⟨some 'l', none⟩ 'l' (by decide) (by decide) (by decide) rfl⟩

/-! ### Idempotence of the normalizer on already-normalized text -/

/-- Scanner for adjacent-pair conditions: `noPairs bad t` holds when no two
adjacent characters of `t` satisfy `bad`. -/
def noPairs (bad : Char → Char → Bool) : List Char → Bool
  | [] => true
  | [_] => true
  | a :: b :: rest => !(bad a b) && noPairs bad (b :: rest)

/-- Dropping the head preserves `noPairs`. -/
theorem noPairs_tail {bad : Char → Char → Bool} {a : Char} {t : List Char}
    (h : noPairs bad (a :: t) = true) : noPairs bad t = true := by
  match t with
  | [] => rfl
  | b :: rest =>
    rw [noPairs, Bool.and_eq_true] at h
    exact h.2

/-- Reading off the pair condition at the head of the list. -/
theorem noPairs_head {bad : Char → Char → Bool} {a b : Char} {t : List Char}
    (h : noPairs bad (a :: b :: t) = true) : bad a b = false := by
  rw [noPairs, Bool.and_eq_true] at h
  have := h.1
  rwa [Bool.not_eq_true'] at this

/-- Decidable statement that a text is already in normalized form: it has no
newline, no whitespace right after sentence punctuation, no whitespace right
after an opening smart quote, and no whitespace right before a closing smart
quote. -/
def normalizedReady (t : List Char) : Bool :=
  t.all (fun c => !(decide (c = '\n'))) &&
  noPairs (fun a w => decide (a ∈ PUNCTUATION) && isJsWs w) t &&
  noPairs (fun a w => decide (a ∈ OPEN_SMART) && isJsWs w) t &&
  noPairs (fun a w => isJsWs a && decide (w ∈ CLOSE_SMART)) t

/-- Newline replacement is a no-op on newline-free text. -/
theorem mapNewlines_id (t : List Char) (h : ∀ c ∈ t, c ≠ '\n') :
    mapNewlines t = t := by
  induction t with
  | nil => rfl
  | cons c rest ih =>
    show (if c = '\n' then ' ' else c) :: mapNewlines rest = c :: rest
    rw [if_neg (h c (by simp)), ih (fun x hx => h x (by simp [hx]))]

/-- The trigger-then-whitespace deletion is a no-op when no whitespace
follows a trigger (and, if the incoming state is set, the head is not
whitespace). -/
theorem rmWsAfterGo_id (trig : List Char) (t : List Char) (b : Bool)
    (hpairs : noPairs (fun a w => decide (a ∈ trig) && isJsWs w) t = true)
    (hb : b = true → ∀ c, t.head? = some c → isJsWs c = false) :
    rmWsAfterGo trig b t = t := by
  induction t generalizing b with
  | nil => rfl
  | cons c rest ih =>
    have hc : (b && isJsWs c) = false := by
      cases hb2 : b
      · simp
      · simp [hb hb2 c rfl]
    rw [rmWsAfterGo, hc]
    simp only [Bool.false_eq_true, if_false]
    congr 1
    refine ih (decide (c ∈ trig)) (noPairs_tail hpairs) ?_
    intro htrig c2 hc2
    match rest, hc2 with
    | c2h :: tail, hc2 =>
      simp only [List.head?_cons, Option.some.injEq] at hc2
      subst hc2
      have hhd := noPairs_head hpairs
      rw [htrig, Bool.true_and] at hhd
      exact hhd

/-- The whitespace-before-closing-quote deletion is a no-op when no
whitespace precedes a closing smart quote. -/
theorem rmWsBeforeClose_id (t : List Char)
    (hpairs : noPairs (fun a w => isJsWs a && decide (w ∈ CLOSE_SMART)) t
      = true) :
    rmWsBeforeClose t = t := by
  induction t with
  | nil => rfl
  | cons c rest ih =>
    show rmWsBeforeCloseStep c (rmWsBeforeClose rest) = c :: rest
    rw [ih (noPairs_tail hpairs), rmWsBeforeCloseStep]
    cases rest with
    | nil => simp
    | cons c2 tail =>
      have hhd := noPairs_head hpairs
      simp only [List.head?_cons]
      simp [hhd]

/-- Counterexample to C5 as stated: the already-normalized text made of one
leading space and a letter is not returned unchanged — the normalizer always
prepends another space. -/
theorem normalize_not_idempotent :
    cleanText " a".toList ≠ " a".toList ∧
    cleanText " a".toList = "  a".toList := by decide

/-- C5 amended: on already-normalized text (no newline, no whitespace after
punctuation or after an opening quote, no whitespace before a closing quote)
all four replacement rules are a no-op, so normalizing returns the text with
exactly one additional leading space rather than unchanged. -/
theorem cleanText_on_normalized (t : List Char)
    (h : normalizedReady t = true) :
    cleanText t = ' ' :: t := by
  rw [normalizedReady] at h
  simp only [Bool.and_eq_true] at h
  obtain ⟨⟨⟨h1, h2⟩, h3⟩, h4⟩ := h
  have hnl : ∀ c ∈ t, c ≠ '\n' := by
    intro c hc
    have := List.all_eq_true.1 h1 c hc
    simpa using this
  have hfalse : ∀ s : List Char, (false = true →
      ∀ c, s.head? = some c → isJsWs c = false) := by
    intro s hb
    exact absurd hb (by simp)
  rw [cleanText, mapNewlines_id t hnl]
  simp only [rmWsAfter]
  rw [rmWsAfterGo_id _ _ _ h2 (hfalse t), rmWsAfterGo_id _ _ _ h3 (hfalse t),
    rmWsBeforeClose_id t h4]

/-- Witness for the amended C5 at the normalized text consisting of one
leading space and a letter. -/
theorem cleanText_on_normalized_witness :
    normalizedReady " a".toList = true ∧
    cleanText " a".toList = ' ' :: " a".toList :=
  ⟨by decide, cleanText_on_normalized " a".toList (by decide)⟩

/-! ### Row-start space suppression -/

/-- The trigger-then-whitespace deletion passes over a whitespace-free
prefix unchanged, updating its state to whether the last prefix character is
a trigger. -/
theorem rmWsAfterGo_append_nonws (trig : List Char) (pre : List Char) :
    ∀ (b : Bool) (rest : List Char), (∀ c ∈ pre, isJsWs c = false) →
      rmWsAfterGo trig b (pre ++ rest) =
        pre ++ rmWsAfterGo trig
          (pre.getLast?.elim b (fun d => decide (d ∈ trig))) rest := by
  induction pre with
  | nil => intro b rest h; rfl
  | cons c l ih =>
    intro b rest h
    have hc : isJsWs c = false := h c (by simp)
    show rmWsAfterGo trig b (c :: (l ++ rest)) = _
    rw [rmWsAfterGo, hc]
    simp only [Bool.and_false, Bool.false_eq_true, if_false]
    rw [ih (decide (c ∈ trig)) rest (fun x hx => h x (by simp [hx]))]
    have hlast : (c :: l).getLast?.elim b (fun d => decide (d ∈ trig)) =
        l.getLast?.elim (decide (c ∈ trig)) (fun d => decide (d ∈ trig)) := by
      cases l with
      | nil => rfl
      | cons y ys =>
        rw [List.getLast?_cons_cons]
        cases hys : (y :: ys).getLast? with
        | none => simp at hys
        | some z => rfl
    rw [hlast]
    rfl

/-- The whitespace-before-closing-quote deletion passes over a
whitespace-free prefix unchanged. -/
theorem rmWsBeforeClose_append_nonws (pre : List Char) :
    ∀ rest : List Char, (∀ c ∈ pre, isJsWs c = false) →
      rmWsBeforeClose (pre ++ rest) = pre ++ rmWsBeforeClose rest := by
  induction pre with
  | nil => intro rest h; rfl
  | cons c l ih =>
    intro rest h
    show rmWsBeforeCloseStep c (rmWsBeforeClose (l ++ rest)) = _
    rw [ih rest (fun x hx => h x (by simp [hx]))]
    simp [rmWsBeforeCloseStep, h c (by simp)]

/-- One non-skipped, non-squeezed step of the materializing walk. -/
theorem buildCells_cons_plain (m n : Nat) (c : Char) (rest : List Char)
    (hn : n < m)
    (hskip : ¬(c = ' ' ∧ 0 < n ∧ n % GRID_COLS = 0))
    (hsq : ∀ c2, rest.head? = some c2 →
      ¬((n + 1) % GRID_COLS = 0 ∧ c2 ∈ FORBIDDEN_START_CHARS)) :
    buildCells m (c :: rest) n =
      ⟨some c, none⟩ :: buildCells m rest (n + 1) := by
  cases rest with
  | nil => simp [buildCells, hn, hskip]
  | cons c2 tail => simp [buildCells, hn, hskip, hsq c2 rfl]

/-- One skipped space at a row-start position. -/
theorem buildCells_cons_skip (m n : Nat) (rest : List Char)
    (hn : n < m) (h0 : 0 < n) (hmod : n % GRID_COLS = 0) :
    buildCells m (' ' :: rest) n = buildCells m rest n := by
  cases rest with
  | nil => simp [buildCells, hn, h0, hmod]
  | cons c2 tail => simp [buildCells, hn, h0, hmod]

/-- Running the walk over a block of characters at positions that are
neither row starts nor row ends emits exactly one plain cell per character. -/
theorem buildCells_append_run (m : Nat) (l : List Char) :
    ∀ (rest : List Char) (n : Nat),
      n + l.length ≤ m →
      (∀ i, i < l.length → (n + i) % GRID_COLS ≠ 0 ∧
        (n + i + 1) % GRID_COLS ≠ 0) →
      buildCells m (l ++ rest) n =
        l.map (fun c => (⟨some c, none⟩ : Cell)) ++
          buildCells m rest (n + l.length) := by
  induction l with
  | nil => intro rest n h1 h2; simp
  | cons c t ih =>
    intro rest n h1 h2
    have h0 := h2 0 (by simp)
    rw [List.cons_append, buildCells_cons_plain m n c (t ++ rest)
      (by simp only [List.length_cons] at h1; omega)
      (fun hs => h0.1 (by simpa using hs.2.2))
      (fun c2 hc2 hsq => h0.2 (by simpa using hsq.1))]
    rw [ih rest (n + 1)
      (by simp only [List.length_cons] at h1; omega)
      (fun i hi => by
        have hthis := h2 (i + 1) (by simp only [List.length_cons]; omega)
        constructor
        · have e : n + 1 + i = n + (i + 1) := by omega
          rw [e]; exact hthis.1
        · have e : n + 1 + i + 1 = n + (i + 1) + 1 := by omega
          rw [e]; exact hthis.2)]
    have e : n + 1 + t.length = n + (c :: t).length := by
      simp only [List.length_cons]; omega
    rw [e, List.map_cons, List.cons_append]

/-- Unfolding equation for the trigger-then-whitespace worker on a cons. -/
theorem rmWsAfterGo_cons (trig : List Char) (b : Bool) (c : Char)
    (rest : List Char) :
    rmWsAfterGo trig b (c :: rest) =
      if b && isJsWs c then rmWsAfterGo trig b rest
      else c :: rmWsAfterGo trig (decide (c ∈ trig)) rest := rfl

/-- A whitespace-free character is not a newline. -/
theorem ne_newline_of_not_ws {c : Char} (h : isJsWs c = false) : c ≠ '\n' := by
  intro e
  subst e
  exact absurd h (by decide)

/-- Normalization of a text made of a whitespace-free block of characters
(whose last character triggers no deletion rule), a single space, and a
following character that is neither whitespace nor a closing smart quote:
the block, the space and that character all survive normalization, behind
the reserved leading space. -/
theorem cleanText_shape (pre : List Char) (d hch : Char) (rest : List Char)
    (hpre : ∀ c ∈ pre ++ [d], isJsWs c = false)
    (hd1 : d ∉ PUNCTUATION) (hd2 : d ∉ OPEN_SMART)
    (hh : isJsWs hch = false) (hq : hch ∉ CLOSE_SMART) :
    ∃ tail, cleanText (pre ++ d :: ' ' :: hch :: rest) =
      ' ' :: (pre ++ d :: ' ' :: hch :: tail) := by
  have hassoc : pre ++ d :: ' ' :: hch :: rest =
      (pre ++ [d]) ++ ' ' :: hch :: rest := by simp
  have hnl : ∀ c ∈ pre ++ [d], c ≠ '\n' :=
    fun c hc => ne_newline_of_not_ws (hpre c hc)
  have hhk : hch ≠ '\n' := ne_newline_of_not_ws hh
  have hm : mapNewlines (pre ++ d :: ' ' :: hch :: rest) =
      (pre ++ [d]) ++ ' ' :: hch :: mapNewlines rest := by
    rw [hassoc]
    show List.map _ _ = _
    rw [List.map_append]
    congr 1
    · exact mapNewlines_id _ hnl
    · show (if (' ' : Char) = '\n' then ' ' else ' ') ::
        (if hch = '\n' then ' ' else hch) :: mapNewlines rest = _
      rw [if_neg (by decide), if_neg hhk]
  have h1 : rmWsAfter PUNCTUATION
      ((pre ++ [d]) ++ ' ' :: hch :: mapNewlines rest) =
      (pre ++ [d]) ++ ' ' :: hch ::
        rmWsAfterGo PUNCTUATION (decide (hch ∈ PUNCTUATION))
          (mapNewlines rest) := by
    rw [rmWsAfter, rmWsAfterGo_append_nonws _ _ _ _ hpre, List.getLast?_concat]
    simp only [Option.elim]
    congr 1
    rw [rmWsAfterGo_cons, decide_eq_false hd1]
    simp only [Bool.false_and, Bool.false_eq_true, if_false]
    congr 1
  have h2 : rmWsAfter OPEN_SMART
      ((pre ++ [d]) ++ ' ' :: hch ::
        rmWsAfterGo PUNCTUATION (decide (hch ∈ PUNCTUATION))
          (mapNewlines rest)) =
      (pre ++ [d]) ++ ' ' :: hch ::
        rmWsAfterGo OPEN_SMART (decide (hch ∈ OPEN_SMART))
          (rmWsAfterGo PUNCTUATION (decide (hch ∈ PUNCTUATION))
            (mapNewlines rest)) := by
    rw [rmWsAfter, rmWsAfterGo_append_nonws _ _ _ _ hpre, List.getLast?_concat]
    simp only [Option.elim]
    congr 1
    rw [rmWsAfterGo_cons, decide_eq_false hd2]
    simp only [Bool.false_and, Bool.false_eq_true, if_false]
    congr 1
  have h3 : rmWsBeforeClose
      ((pre ++ [d]) ++ ' ' :: hch ::
        rmWsAfterGo OPEN_SMART (decide (hch ∈ OPEN_SMART))
          (rmWsAfterGo PUNCTUATION (decide (hch ∈ PUNCTUATION))
            (mapNewlines rest))) =
      (pre ++ [d]) ++ ' ' :: hch ::
        rmWsBeforeClose
          (rmWsAfterGo OPEN_SMART (decide (hch ∈ OPEN_SMART))
            (rmWsAfterGo PUNCTUATION (decide (hch ∈ PUNCTUATION))
              (mapNewlines rest))) := by
    rw [rmWsBeforeClose_append_nonws _ _ hpre]
    congr 1
    show rmWsBeforeCloseStep ' '
      (rmWsBeforeCloseStep hch
        (rmWsBeforeClose
          (rmWsAfterGo OPEN_SMART (decide (hch ∈ OPEN_SMART))
            (rmWsAfterGo PUNCTUATION (decide (hch ∈ PUNCTUATION))
              (mapNewlines rest))))) = _
    have hstep : rmWsBeforeCloseStep hch
        (rmWsBeforeClose
          (rmWsAfterGo OPEN_SMART (decide (hch ∈ OPEN_SMART))
            (rmWsAfterGo PUNCTUATION (decide (hch ∈ PUNCTUATION))
              (mapNewlines rest)))) =
        hch :: rmWsBeforeClose
          (rmWsAfterGo OPEN_SMART (decide (hch ∈ OPEN_SMART))
            (rmWsAfterGo PUNCTUATION (decide (hch ∈ PUNCTUATION))
              (mapNewlines rest))) := by
      simp [rmWsBeforeCloseStep, hh]
    rw [hstep, rmWsBeforeCloseStep]
    simp [decide_eq_false hq]
  refine ⟨rmWsBeforeClose
      (rmWsAfterGo OPEN_SMART (decide (hch ∈ OPEN_SMART))
        (rmWsAfterGo PUNCTUATION (decide (hch ∈ PUNCTUATION))
          (mapNewlines rest))), ?_⟩
  unfold cleanText
  rw [hm, h1, h2, h3]
  simp

/-- Counterexample to C6 as stated: with exactly `GRID_COLS` non-space
characters before the space, the reserved leading indentation cell shifts
the layout: the tenth character occupies the first cell of row 2 and the
space is placed (not dropped) in the second cell of row 2, so the next
character after the space does not start row 2. -/
theorem row_start_space_counterexample :
    (buildGrid "abcdefghij klm".toList 5)[10]? = some ⟨some 'j', none⟩ ∧
    (buildGrid "abcdefghij klm".toList 5)[11]? = some ⟨some ' ', none⟩ := by
  decide

/-- C6 amended: for input of `GRID_COLS - 1` whitespace-free characters
followed by one space followed by more text — where the last of those
characters triggers no space-deletion rule and the character after the space
is neither whitespace nor a closing smart quote — the first row holds the
reserved indentation cell plus the nine characters, the space that would
begin row 2 is skipped, and the character after it occupies the first cell
of row 2 (index 10). -/
theorem row_start_space_suppressed (pre : List Char) (d hch : Char)
    (rest : List Char) (rows : Nat)
    (hlen : pre.length = 8) (hrows : 2 ≤ rows)
    (hpre : ∀ c ∈ pre ++ [d], isJsWs c = false)
    (hd1 : d ∉ PUNCTUATION) (hd2 : d ∉ OPEN_SMART)
    (hh : isJsWs hch = false) (hq : hch ∉ CLOSE_SMART) :
    (buildGrid (pre ++ d :: ' ' :: hch :: rest) rows)[9]? =
      some ⟨some d, none⟩ ∧
    (buildGrid (pre ++ d :: ' ' :: hch :: rest) rows)[10]? =
      some ⟨some hch, none⟩ := by
  obtain ⟨tail, hclean⟩ := cleanText_shape pre d hch rest hpre hd1 hd2 hh hq
  have h10 : GRID_COLS = 10 := rfl
  have hm20 : 20 ≤ rows * GRID_COLS := by rw [h10]; omega
  have hw : buildCells (rows * GRID_COLS)
      (cleanText (pre ++ d :: ' ' :: hch :: rest)) 0 =
      (⟨some ' ', none⟩ :: pre.map (fun c => (⟨some c, none⟩ : Cell))) ++
        ⟨some d, none⟩ :: ⟨some hch, none⟩ ::
          buildCells (rows * GRID_COLS) tail 11 := by
    rw [hclean]
    rw [buildCells_cons_plain _ 0 ' ' _ (by omega) (by simp)
      (fun c2 hc2 hx => by rw [h10] at hx; omega)]
    rw [buildCells_append_run _ pre _ 1 (by rw [h10, hlen]; omega)
      (fun i hi => by rw [hlen] at hi; rw [h10]; omega)]
    rw [hlen]
    rw [buildCells_cons_plain _ 9 d _ (by omega)
      (fun hs => by rw [h10] at hs; omega)
      (fun c2 hc2 hx => by
        simp only [List.head?_cons, Option.some.injEq] at hc2
        subst hc2
        exact absurd hx.2 (by decide))]
    rw [buildCells_cons_skip _ 10 _ (by omega) (by omega) (by decide)]
    rw [buildCells_cons_plain _ 10 hch _ (by omega)
      (fun hs => by rw [hs.1] at hh; exact absurd hh (by decide))
      (fun c2 hc2 hx => by exact absurd hx.1 (by decide))]
    simp
  have hpl : (⟨some ' ', none⟩ ::
      pre.map (fun c => (⟨some c, none⟩ : Cell))).length = 9 := by
    simp [hlen]
  constructor
  · unfold buildGrid
    rw [List.getElem?_append_left (by rw [hw]; simp [hlen]; omega), hw,
      List.getElem?_append_right (by rw [hpl]), hpl]
    rfl
  · unfold buildGrid
    rw [List.getElem?_append_left (by rw [hw]; simp [hlen]; omega), hw,
      List.getElem?_append_right (by rw [hpl]; omega), hpl]
    show (Cell.mk (some d) none :: Cell.mk (some hch) none ::
      buildCells (rows * GRID_COLS) tail 11)[0 + 1]? = some ⟨some hch, none⟩
    rw [List.getElem?_cons_succ, List.getElem?_cons_zero]

/-- Witness for the amended C6: nine letters, a space, then more text. -/
theorem row_start_space_suppressed_witness :
    "abcdefgh".toList.length = 8 ∧
    (buildGrid ("abcdefgh".toList ++ 'i' :: ' ' :: 'k' :: "lm".toList)
        5)[10]? = some ⟨some 'k', none⟩ :=
  ⟨rfl,
    (row_start_space_suppressed "abcdefgh".toList 'i' 'k' "lm".toList 5
      rfl (by decide) (by decide) (by decide) (by decide) (by decide)
      (by decide)).2⟩

/-- Witness for C1: a padding cell of the grid derived for a concrete text
is indeed the empty cell. -/
theorem countRows_buildGrid_agree_witness :
    (⟨none, none⟩ : Cell) ∈ (buildGrid "hi!".toList
      (calculateRequiredRows "hi!".toList)).drop
        (countCells (cleanText "hi!".toList) 0) ∧
    (⟨none, none⟩ : Cell) = ⟨none, none⟩ :=
  ⟨by decide,
    (countRows_buildGrid_agree "hi!".toList).2.1 ⟨none, none⟩ (by decide)⟩
